import Mathlib

/-!
Shallow embedding of the review/status-check backend (`app/backend/server.py`).

The service stores two MongoDB collections of flat documents (`reviews`,
`status_checks`).  We model a BSON document as an association list from field
names to BSON values, the MongoDB sort as an insertion sort under the BSON
comparison order on the requested key list, and the Python `datetime`
`isoformat`/`fromisoformat` pair as an order-preserving decimal encoding of a
natural-number timestamp (real `isoformat` output of UTC datetimes is likewise
a fixed-shape string whose bytewise order agrees with chronological order).
Route handlers become explicit state-passing functions over the stored
document list; Python exceptions become `Except` errors.
-/

/-- BSON values occurring in this service's documents: integers, strings,
`null` (a `None` comment), and datetimes (after the handlers parse stored
ISO strings back with `fromisoformat`). -/
inductive BVal where
  | int (n : Int)
  | str (s : String)
  | null
  | dt (t : Nat)
deriving DecidableEq, Repr

/-- A stored document: a flat association list of field name to BSON value.
The MongoDB-internal `_id` is never materialised here, matching the
`{"_id": 0}` projection used by every read in the server. -/
abbrev Doc := List (String × BVal)

/-- Field lookup in a document (Python `doc.get(key)` / `doc[key]`). -/
def getField (d : Doc) (k : String) : Option BVal :=
  (d.find? (fun p => p.1 = k)).map (fun p => p.2)

/-- Field update in a document (Python `doc[key] = v` on an existing key). -/
def setField (d : Doc) (k : String) (v : BVal) : Doc :=
  d.map (fun p => if p.1 = k then (k, v) else p)

/-- The field names used by the server. -/
def kId : String := "id"

def kName : String := "name"

def kRating : String := "rating"

def kComment : String := "comment"

def kCreatedAt : String := "created_at"

def kClientName : String := "client_name"

def kTimestamp : String := "timestamp"

/-! ### Timestamp serialisation

Model of Python `datetime.isoformat` / `datetime.fromisoformat` on the UTC
timestamps the server generates: an injective, order-preserving rendering of a
`Nat` timestamp as a fixed-width decimal string, with parsing as its partial
inverse (parsing fails on non-digit data, as `fromisoformat` raises
`ValueError` on malformed input). -/

/-- The character for a single decimal digit. -/
def digitChar (d : Nat) : Char := Char.ofNat (48 + d)

/-- Most-significant-first base-10 digits of `t`, padded to width `w`. -/
def natDigits : Nat → Nat → List Nat
  | 0, _ => []
  | w + 1, t => t / 10 ^ w :: natDigits w (t % 10 ^ w)

/-- Width of the serialised timestamp string. -/
def isoWidth : Nat := 20

/-- Model of `datetime.isoformat`: fixed-width decimal rendering. -/
def isoformat (t : Nat) : String :=
  String.mk ((natDigits isoWidth t).map digitChar)

/-- Decimal digit value of a character, if it is a digit. -/
def charDigit (c : Char) : Option Nat :=
  if 48 ≤ c.toNat ∧ c.toNat ≤ 57 then some (c.toNat - 48) else none

/-- Accumulating decimal parse of a character list. -/
def parseDigits : List Char → Option Nat → Option Nat
  | [], acc => acc
  | c :: cs, acc =>
      parseDigits cs (acc.bind (fun v => (charDigit c).map (fun d => v * 10 + d)))

/-- Model of `datetime.fromisoformat`: parse the decimal rendering; `none`
models the `ValueError` raised on malformed input. -/
def fromisoformat (s : String) : Option Nat :=
  if s.data.isEmpty then none else parseDigits s.data (some 0)

/-! ### BSON comparison order

MongoDB compares values first by type (null/missing < numbers < strings <
dates) and then by value within a type; strings compare bytewise, which on
these ASCII documents is codepoint-lexicographic.  `sort` key directions are
`1` (ascending) and `-1` (descending). -/

/-- Three-way comparison on `Nat`. -/
def natCmp (m n : Nat) : Ordering :=
  if m < n then .lt else if n < m then .gt else .eq

/-- Three-way comparison on `Int`. -/
def intCmp (m n : Int) : Ordering :=
  if m < n then .lt else if n < m then .gt else .eq

/-- Codepoint comparison on characters. -/
def charCmp (a b : Char) : Ordering := natCmp a.toNat b.toNat

/-- Lexicographic extension of a comparator to lists. -/
def lexListCmp (cmp : α → α → Ordering) : List α → List α → Ordering
  | [], [] => .eq
  | [], _ :: _ => .lt
  | _ :: _, [] => .gt
  | a :: as, b :: bs =>
      match cmp a b with
      | .eq => lexListCmp cmp as bs
      | o => o

/-- BSON type rank of an optional field value: a missing field sorts together
with `null`, before numbers, then strings, then dates. -/
def bvalRank : Option BVal → Nat
  | none => 0
  | some .null => 0
  | some (.int _) => 1
  | some (.str _) => 2
  | some (.dt _) => 3

/-- Numeric payload of a field value (`0` for non-numbers). -/
def bvalInt : Option BVal → Int
  | some (.int n) => n
  | _ => 0

/-- String payload of a field value (`[]` for non-strings). -/
def bvalChars : Option BVal → List Char
  | some (.str s) => s.data
  | _ => []

/-- Datetime payload of a field value (`0` for non-dates). -/
def bvalDt : Option BVal → Nat
  | some (.dt t) => t
  | _ => 0

/-- BSON comparison of two optional field values: by type rank, then by the
payload of the (necessarily shared) type. -/
def bvalCmp : Option BVal → Option BVal → Ordering :=
  compareLex (Ordering.byKey bvalRank natCmp)
    (compareLex (Ordering.byKey bvalInt intCmp)
      (compareLex (Ordering.byKey bvalChars (lexListCmp charCmp))
        (Ordering.byKey bvalDt natCmp)))

/-- Comparison of one sort key with a direction (`1` ascending, otherwise
`-1` descending, as in the server's `sort_options` table). -/
def dirCmp (dir : Int) (a b : Option BVal) : Ordering :=
  if dir = 1 then bvalCmp a b else bvalCmp b a

/-- Document comparison under a MongoDB sort-key list. -/
def keyCmp : List (String × Int) → Doc → Doc → Ordering
  | [], _, _ => .eq
  | (k, dir) :: rest, a, b =>
      match dirCmp dir (getField a k) (getField b k) with
      | .eq => keyCmp rest a b
      | o => o

/-- The sort order used by MongoDB for a key list, as a relation. -/
def keyLe (ks : List (String × Int)) (a b : Doc) : Prop :=
  keyCmp ks a b ≠ .gt

instance (ks : List (String × Int)) : DecidableRel (keyLe ks) := by
  intro a b
  unfold keyLe
  infer_instance

/-- Model of `collection.find({}, {"_id": 0}).sort(ks)`: the stored documents
rearranged into the BSON order for the key list `ks`. -/
def mongoSort (ks : List (String × Int)) (store : List Doc) : List Doc :=
  store.insertionSort (keyLe ks)

/-! ### Request/response models (`server.py` pydantic models) -/

/-- `SortOrder` enum (`server.py` lines 31-35). -/
inductive SortOrder where
  | DATE_DESC
  | DATE_ASC
  | RATING_DESC
  | RATING_ASC
deriving DecidableEq, Repr

/-- The `Review` response model: the object returned by `POST /reviews`. -/
structure Review where
  id : String
  name : String
  rating : Int
  comment : Option String
  created_at : Nat
deriving DecidableEq, Repr

/-- The body of `POST /reviews` after JSON decoding, before validation. -/
structure ReviewCreateInput where
  name : String
  rating : Int
  comment : Option String
deriving DecidableEq, Repr

/-- The `ReviewStats` response model. -/
structure ReviewStats where
  average_rating : Rat
  total_reviews : Int
deriving DecidableEq, Repr

/-- The `StatusCheck` response model. -/
structure StatusCheck where
  id : String
  client_name : String
  timestamp : Nat
deriving DecidableEq, Repr

/-- The body of `POST /status` after JSON decoding. -/
structure StatusCheckCreateInput where
  client_name : String
deriving DecidableEq, Repr

/-- FastAPI's 422 validation failure. -/
inductive ValidationError where
  | validationError
deriving DecidableEq, Repr

/-- Python runtime exceptions that can escape a handler. -/
inductive PyError where
  | keyError
  | valueError
  | typeError
deriving DecidableEq, Repr

instance {ε α : Type _} [DecidableEq ε] [DecidableEq α] : DecidableEq (Except ε α) :=
  fun a b =>
    match a, b with
    | .ok x, .ok y =>
        if h : x = y then .isTrue (congrArg Except.ok h)
        else .isFalse (fun hc => h (Except.ok.inj hc))
    | .error e, .error f =>
        if h : e = f then .isTrue (congrArg Except.error h)
        else .isFalse (fun hc => h (Except.error.inj hc))
    | .ok _, .error _ => .isFalse (fun hc => Except.noConfusion hc)
    | .error _, .ok _ => .isFalse (fun hc => Except.noConfusion hc)

/-- The `ReviewCreate` pydantic constraints (`server.py` lines 48-51):
`name` 1-100 characters, `rating` an integer in `[1, 5]`, `comment` optional
with at most 500 characters. -/
def validate_review_create (inp : ReviewCreateInput) : Bool :=
  1 ≤ inp.name.length && inp.name.length ≤ 100 &&
  1 ≤ inp.rating && inp.rating ≤ 5 &&
  (match inp.comment with
   | none => true
   | some c => c.length ≤ 500)

/-- The document inserted by `create_review`: `review.model_dump()` with
`created_at` replaced by its `isoformat` string (`server.py` lines 87-88). -/
def reviewDoc (idv nm : String) (rating : Int) (comment : Option String) (t : Nat) : Doc :=
  [(kId, .str idv), (kName, .str nm), (kRating, .int rating),
   (kComment, comment.elim BVal.null BVal.str), (kCreatedAt, .str (isoformat t))]

/-- `POST /reviews` (`server.py` lines 78-91).  `idv` and `t` stand for the
freshly generated `uuid4` and `datetime.now` values.  Validation happens at
the FastAPI boundary before the handler body runs; on failure nothing is
inserted. -/
def create_review (store : List Doc) (inp : ReviewCreateInput) (idv : String) (t : Nat) :
    Except ValidationError Review × List Doc :=
  if validate_review_create inp then
    (.ok ⟨idv, inp.name, inp.rating, inp.comment, t⟩,
     store ++ [reviewDoc idv inp.name inp.rating inp.comment t])
  else
    (.error .validationError, store)

/-- The sort-key table of `get_reviews` (`server.py` lines 97-102). -/
def sort_options : SortOrder → List (String × Int)
  | .DATE_DESC => [(kCreatedAt, -1)]
  | .DATE_ASC => [(kCreatedAt, 1)]
  | .RATING_DESC => [(kRating, -1), (kCreatedAt, -1)]
  | .RATING_ASC => [(kRating, 1), (kCreatedAt, -1)]

/-- The per-document body of the `get_reviews` loop (`server.py` lines
106-108): parse `created_at` back from its ISO string when it is a string,
leave the document alone otherwise (`review.get` is total on missing keys). -/
def parse_created_at (d : Doc) : Except PyError Doc :=
  match getField d kCreatedAt with
  | some (.str s) =>
      match fromisoformat s with
      | some t => .ok (setField d kCreatedAt (.dt t))
      | none => .error .valueError
  | _ => .ok d

/-- The `for review in reviews` loop of `get_reviews`: the first raised
exception aborts the request. -/
def parse_all_created_at : List Doc → Except PyError (List Doc)
  | [] => .ok []
  | d :: ds =>
      match parse_created_at d with
      | .error e => .error e
      | .ok d' =>
          match parse_all_created_at ds with
          | .error e => .error e
          | .ok ds' => .ok (d' :: ds')

/-- `GET /reviews` (`server.py` lines 94-110): sort under the selected key
list, keep at most 1000 documents (`to_list(1000)`), then normalise the
timestamps. -/
def get_reviews (store : List Doc) (sort : SortOrder) : Except PyError (List Doc) :=
  parse_all_created_at ((mongoSort (sort_options sort) store).take 1000)

/-- FastAPI parsing of the `sort` query parameter
(`sort: SortOrder = Query(default=SortOrder.DATE_DESC)`, `server.py` line
95): an omitted parameter takes the default; a present value must be one of
the four enum member values, anything else is a 422. -/
def parse_sort_param : Option String → Except ValidationError SortOrder
  | none => .ok .DATE_DESC
  | some s =>
      if s = "date_desc" then .ok .DATE_DESC
      else if s = "date_asc" then .ok .DATE_ASC
      else if s = "rating_desc" then .ok .RATING_DESC
      else if s = "rating_asc" then .ok .RATING_ASC
      else .error .validationError

/-! ### Review statistics (`server.py` lines 113-134) -/

/-- The numeric `rating` values in the store, as collected by `$avg`
(which skips documents whose `rating` is missing or non-numeric). -/
def ratingsOf (store : List Doc) : List Int :=
  store.filterMap (fun d =>
    match getField d kRating with
    | some (.int n) => some n
    | _ => none)

/-- Result rows of the `$group` aggregation pipeline: on a non-empty
collection, one row holding `$avg` of `rating` (`none` models the SQL-style
`null` average when no document has a numeric rating) and `$sum: 1`; on an
empty collection, no rows at all. -/
def aggregate_stats (store : List Doc) : List (Option Rat × Int) :=
  match store with
  | [] => []
  | _ =>
      [(if (ratingsOf store).length = 0 then none
        else some ((((ratingsOf store).foldl (· + ·) 0 : Int) : Rat) / ((ratingsOf store).length : Rat)),
        (store.length : Int))]

/-- Python `round` to an integer: nearest, ties to even. -/
def roundHalfEven (q : Rat) : Int :=
  let f := q.floor
  if q - (f : Rat) < 1 / 2 then f
  else if (1 : Rat) / 2 < q - (f : Rat) then f + 1
  else if f % 2 = 0 then f else f + 1

/-- Python `round(x, 1)`: round to one decimal place, ties to even. -/
def pyRound1 (q : Rat) : Rat := (roundHalfEven (q * 10) : Rat) / 10

/-- `GET /reviews/stats` (`server.py` lines 113-134): run the aggregation;
with no result row return `(0, 0)`, otherwise round the average to one
decimal place (`round(None, 1)` on an all-non-numeric collection would raise
`TypeError`). -/
def get_review_stats (store : List Doc) : Except PyError ReviewStats :=
  match aggregate_stats store with
  | [] => .ok ⟨0, 0⟩
  | (avg, cnt) :: _ =>
      match avg with
      | none => .error .typeError
      | some q => .ok ⟨pyRound1 q, cnt⟩

/-! ### Status checks (`server.py` lines 138-158) -/

/-- The document inserted by `create_status_check` (`server.py` lines
143-144). -/
def statusDoc (idv cname : String) (t : Nat) : Doc :=
  [(kId, .str idv), (kClientName, .str cname), (kTimestamp, .str (isoformat t))]

/-- `POST /status` (`server.py` lines 138-147): `StatusCheckCreate` imposes no
constraint beyond `client_name` being a string, so the handler always
succeeds, stamps `idv`/`t`, persists and echoes. -/
def create_status_check (store : List Doc) (inp : StatusCheckCreateInput)
    (idv : String) (t : Nat) :
    Except ValidationError StatusCheck × List Doc :=
  (.ok ⟨idv, inp.client_name, t⟩,
   store ++ [statusDoc idv inp.client_name t])

/-- The per-document body of the `get_status_checks` loop (`server.py` lines
154-156): `check['timestamp']` raises `KeyError` on a document without the
field, unlike the `.get` used for reviews. -/
def parse_timestamp (d : Doc) : Except PyError Doc :=
  match getField d kTimestamp with
  | none => .error .keyError
  | some (.str s) =>
      match fromisoformat s with
      | some t => .ok (setField d kTimestamp (.dt t))
      | none => .error .valueError
  | some _ => .ok d

/-- The `for check in status_checks` loop. -/
def parse_all_timestamp : List Doc → Except PyError (List Doc)
  | [] => .ok []
  | d :: ds =>
      match parse_timestamp d with
      | .error e => .error e
      | .ok d' =>
          match parse_all_timestamp ds with
          | .error e => .error e
          | .ok ds' => .ok (d' :: ds')

/-- `GET /status` (`server.py` lines 150-158): no sort, at most 1000
documents, then timestamp normalisation. -/
def get_status_checks (store : List Doc) : Except PyError (List Doc) :=
  parse_all_timestamp (store.take 1000)

/-- The integer rating carried by a document (`0` when absent/non-numeric). -/
def docRating (d : Doc) : Int := bvalInt (getField d kRating)

/-- The creation time carried by a document: a stored ISO string is decoded,
an already-parsed datetime is read directly; `0` otherwise. -/
def docTime (d : Doc) : Nat :=
  match getField d kCreatedAt with
  | some (.str s) => (fromisoformat s).getD 0
  | some (.dt t) => t
  | _ => 0

/-- A review document as `create_review` writes it (with an in-range
timestamp). -/
def IsApiReviewDoc (d : Doc) : Prop :=
  ∃ idv nm rating comment t,
    t < 10 ^ isoWidth ∧ d = reviewDoc idv nm rating comment t

/-- A review document satisfying the §3 data-model bounds. -/
def IsValidReviewDoc (d : Doc) : Prop :=
  ∃ idv nm rating comment t,
    d = reviewDoc idv nm rating comment t ∧
    1 ≤ nm.length ∧ nm.length ≤ 100 ∧ 1 ≤ rating ∧ rating ≤ 5 ∧
    ∀ c, comment = some c → c.length ≤ 500

/-! ### The example store of the spec (ratings [5, 4, 3, 5, 2] created in
that order, at consecutive timestamps) -/

def exStore1 : List Doc := (create_review [] ⟨"a", 5, none⟩ "id1" 0).2

def exStore2 : List Doc := (create_review exStore1 ⟨"b", 4, none⟩ "id2" 1).2

def exStore3 : List Doc := (create_review exStore2 ⟨"c", 3, none⟩ "id3" 2).2

def exStore4 : List Doc := (create_review exStore3 ⟨"d", 5, none⟩ "id4" 3).2

def exStore : List Doc := (create_review exStore4 ⟨"e", 2, none⟩ "id5" 4).2

/-! ### Lawfulness of the comparison order

The MongoDB sort order on documents is a total preorder; these lemmas feed
`List.sorted_insertionSort`. -/

theorem natCmp_lt_iff {m n : Nat} : natCmp m n = .lt ↔ m < n := by
  unfold natCmp
  split
  · simp; omega
  · split <;> simp <;> omega

theorem natCmp_eq_iff {m n : Nat} : natCmp m n = .eq ↔ m = n := by
  unfold natCmp
  split
  · simp; omega
  · split <;> simp <;> omega

theorem natCmp_gt_iff {m n : Nat} : natCmp m n = .gt ↔ n < m := by
  unfold natCmp
  split
  · simp; omega
  · split <;> simp <;> omega

theorem intCmp_lt_iff {m n : Int} : intCmp m n = .lt ↔ m < n := by
  unfold intCmp
  split
  · simp; omega
  · split <;> simp <;> omega

theorem intCmp_eq_iff {m n : Int} : intCmp m n = .eq ↔ m = n := by
  unfold intCmp
  split
  · simp; omega
  · split <;> simp <;> omega

theorem intCmp_gt_iff {m n : Int} : intCmp m n = .gt ↔ n < m := by
  unfold intCmp
  split
  · simp; omega
  · split <;> simp <;> omega

instance : Batteries.TransCmp natCmp where
  symm x y := by
    rcases Nat.lt_trichotomy x y with h | h | h
    · rw [natCmp_lt_iff.mpr h, natCmp_gt_iff.mpr h]
      rfl
    · subst h
      rw [natCmp_eq_iff.mpr rfl]
      rfl
    · rw [natCmp_gt_iff.mpr h, natCmp_lt_iff.mpr h]
      rfl
  le_trans h1 h2 := by
    rw [Ne, natCmp_gt_iff] at h1 h2 ⊢
    omega

instance : Batteries.TransCmp intCmp where
  symm x y := by
    rcases Int.lt_trichotomy x y with h | h | h
    · rw [intCmp_lt_iff.mpr h, intCmp_gt_iff.mpr h]
      rfl
    · subst h
      rw [intCmp_eq_iff.mpr rfl]
      rfl
    · rw [intCmp_gt_iff.mpr h, intCmp_lt_iff.mpr h]
      rfl
  le_trans h1 h2 := by
    rw [Ne, intCmp_gt_iff] at h1 h2 ⊢
    omega

instance : Batteries.TransCmp charCmp :=
  inferInstanceAs (Batteries.TransCmp (Ordering.byKey Char.toNat natCmp))

theorem lexListCmp_swap (cmp : α → α → Ordering) [Batteries.OrientedCmp cmp] :
    ∀ as bs : List α, (lexListCmp cmp as bs).swap = lexListCmp cmp bs as := by
  intro as
  induction as with
  | nil =>
      intro bs
      cases bs <;> rfl
  | cons a as ih =>
      intro bs
      cases bs with
      | nil => rfl
      | cons b bs =>
          have hsymm : (cmp a b).swap = cmp b a := Batteries.OrientedCmp.symm a b
          rcases e : cmp a b with _ | _ | _
          · have e2 : cmp b a = .gt := by rw [← hsymm, e]; rfl
            simp [lexListCmp, e, e2]
            rfl
          · have e2 : cmp b a = .eq := by rw [← hsymm, e]; rfl
            simp [lexListCmp, e, e2, ih bs]
          · have e2 : cmp b a = .lt := by rw [← hsymm, e]; rfl
            simp [lexListCmp, e, e2]
            rfl

theorem lexListCmp_le_trans (cmp : α → α → Ordering) [Batteries.TransCmp cmp] :
    ∀ x y z : List α, lexListCmp cmp x y ≠ .gt → lexListCmp cmp y z ≠ .gt →
      lexListCmp cmp x z ≠ .gt := by
  intro x
  induction x with
  | nil =>
      intro y z _ _
      cases z <;> simp [lexListCmp]
  | cons a as ih =>
      intro y z h1 h2
      cases y with
      | nil => exact absurd rfl h1
      | cons b bs =>
          cases z with
          | nil => exact absurd rfl h2
          | cons c cs =>
              rcases e1 : cmp a b with _ | _ | _
              · rcases e2 : cmp b c with _ | _ | _
                · have e3 : cmp a c = .lt := Batteries.TransCmp.lt_trans e1 e2
                  simp [lexListCmp, e3]
                · have e3 : cmp a c = .lt := by
                    rw [← Batteries.TransCmp.cmp_congr_right e2, e1]
                  simp [lexListCmp, e3]
                · exact absurd (by simp [lexListCmp, e2]) h2
              · rcases e2 : cmp b c with _ | _ | _
                · have e3 : cmp a c = .lt := by
                    rw [Batteries.TransCmp.cmp_congr_left e1, e2]
                  simp [lexListCmp, e3]
                · have e3 : cmp a c = .eq := by
                    rw [Batteries.TransCmp.cmp_congr_left e1, e2]
                  have h1t : lexListCmp cmp as bs ≠ .gt := by
                    simpa [lexListCmp, e1] using h1
                  have h2t : lexListCmp cmp bs cs ≠ .gt := by
                    simpa [lexListCmp, e2] using h2
                  simpa [lexListCmp, e3] using ih bs cs h1t h2t
                · exact absurd (by simp [lexListCmp, e2]) h2
              · exact absurd (by simp [lexListCmp, e1]) h1

instance (cmp : α → α → Ordering) [Batteries.TransCmp cmp] :
    Batteries.TransCmp (lexListCmp cmp) where
  symm x y := lexListCmp_swap cmp x y
  le_trans h1 h2 := lexListCmp_le_trans cmp _ _ _ h1 h2

instance : Batteries.TransCmp bvalCmp := by
  unfold bvalCmp
  infer_instance

theorem transCmp_dirCmp (dir : Int) : Batteries.TransCmp (dirCmp dir) := by
  by_cases h : dir = 1
  · have e : dirCmp dir = bvalCmp := by
      funext a b
      simp [dirCmp, h]
    rw [e]
    infer_instance
  · have e : dirCmp dir = flip bvalCmp := by
      funext a b
      simp [dirCmp, h, flip]
    rw [e]
    infer_instance

theorem keyCmp_cons (k : String) (dir : Int) (rest : List (String × Int)) :
    keyCmp ((k, dir) :: rest) =
      compareLex (Ordering.byKey (fun d => getField d k) (dirCmp dir)) (keyCmp rest) := by
  funext a b
  show (match dirCmp dir (getField a k) (getField b k) with
        | .eq => keyCmp rest a b
        | o => o) = _
  rcases e : dirCmp dir (getField a k) (getField b k) <;>
    simp [compareLex, Ordering.byKey, Ordering.then, e]

theorem transCmp_keyCmp : ∀ ks : List (String × Int), Batteries.TransCmp (keyCmp ks)
  | [] =>
      { symm := fun _ _ => rfl
        le_trans := fun h1 _ => h1 }
  | (k, dir) :: rest => by
      haveI := transCmp_dirCmp dir
      haveI := transCmp_keyCmp rest
      rw [keyCmp_cons]
      infer_instance

theorem keyLe_total (ks : List (String × Int)) (a b : Doc) : keyLe ks a b ∨ keyLe ks b a := by
  haveI := transCmp_keyCmp ks
  by_cases h : keyCmp ks a b = .gt
  · right
    have hlt : keyCmp ks b a = .lt := Batteries.OrientedCmp.cmp_eq_gt.mp h
    unfold keyLe
    rw [hlt]
    decide
  · left
    exact h

theorem keyLe_trans (ks : List (String × Int)) (a b c : Doc)
    (h1 : keyLe ks a b) (h2 : keyLe ks b c) : keyLe ks a c := by
  haveI := transCmp_keyCmp ks
  exact Batteries.TransCmp.le_trans h1 h2

instance (ks : List (String × Int)) : IsTotal Doc (keyLe ks) :=
  ⟨keyLe_total ks⟩

instance (ks : List (String × Int)) : IsTrans Doc (keyLe ks) :=
  ⟨fun a b c => keyLe_trans ks a b c⟩

theorem mongoSort_sorted (ks : List (String × Int)) (store : List Doc) :
    List.Sorted (keyLe ks) (mongoSort ks store) :=
  List.sorted_insertionSort _ _

theorem mongoSort_perm (ks : List (String × Int)) (store : List Doc) :
    List.Perm (mongoSort ks store) store :=
  List.perm_insertionSort _ _

/-! ### Properties of the timestamp encoding -/

theorem lexListCmp_cons (cmp : α → α → Ordering) (a b : α) (as bs : List α) :
    lexListCmp cmp (a :: as) (b :: bs) = (cmp a b).then (lexListCmp cmp as bs) := by
  cases h : cmp a b <;> simp [lexListCmp, h, Ordering.then]

theorem charCmp_digitChar :
    ∀ d1 : Nat, d1 < 10 → ∀ d2 : Nat, d2 < 10 →
      charCmp (digitChar d1) (digitChar d2) = natCmp d1 d2 := by
  decide

theorem charDigit_digitChar : ∀ d : Nat, d < 10 → charDigit (digitChar d) = some d := by
  decide

theorem lexListCmp_natDigits :
    ∀ (w a b : Nat), a < 10 ^ w → b < 10 ^ w →
      lexListCmp charCmp ((natDigits w a).map digitChar) ((natDigits w b).map digitChar) =
        natCmp a b := by
  intro w
  induction w with
  | zero =>
      intro a b ha hb
      interval_cases a
      interval_cases b
      rfl
  | succ w ih =>
      intro a b ha hb
      have hpow : 0 < 10 ^ w := Nat.pos_pow_of_pos w (by omega)
      have hq10 : (10 : Nat) ^ (w + 1) = 10 ^ w * 10 := by ring
      have hqa : a / 10 ^ w < 10 := by
        rw [Nat.div_lt_iff_lt_mul hpow]
        omega
      have hqb : b / 10 ^ w < 10 := by
        rw [Nat.div_lt_iff_lt_mul hpow]
        omega
      have hra : a % 10 ^ w < 10 ^ w := Nat.mod_lt _ hpow
      have hrb : b % 10 ^ w < 10 ^ w := Nat.mod_lt _ hpow
      have hda : 10 ^ w * (a / 10 ^ w) + a % 10 ^ w = a := Nat.div_add_mod a (10 ^ w)
      have hdb : 10 ^ w * (b / 10 ^ w) + b % 10 ^ w = b := Nat.div_add_mod b (10 ^ w)
      have hhead : charCmp (digitChar (a / 10 ^ w)) (digitChar (b / 10 ^ w)) =
          natCmp (a / 10 ^ w) (b / 10 ^ w) :=
        charCmp_digitChar _ hqa _ hqb
      simp only [natDigits, List.map_cons]
      rw [lexListCmp_cons, hhead]
      rcases e : natCmp (a / 10 ^ w) (b / 10 ^ w) with _ | _ | _
      · have elt : a / 10 ^ w < b / 10 ^ w := natCmp_lt_iff.mp e
        have hmul : 10 ^ w * (a / 10 ^ w + 1) ≤ 10 ^ w * (b / 10 ^ w) :=
          Nat.mul_le_mul_left _ (by omega)
        have hexp : 10 ^ w * (a / 10 ^ w + 1) = 10 ^ w * (a / 10 ^ w) + 10 ^ w := by ring
        have hab : a < b := by omega
        exact (natCmp_lt_iff.mpr hab).symm
      · have heq : a / 10 ^ w = b / 10 ^ w := natCmp_eq_iff.mp e
        have hXY : 10 ^ w * (a / 10 ^ w) = 10 ^ w * (b / 10 ^ w) := by rw [heq]
        show lexListCmp charCmp ((natDigits w (a % 10 ^ w)).map digitChar)
            ((natDigits w (b % 10 ^ w)).map digitChar) = natCmp a b
        rw [ih (a % 10 ^ w) (b % 10 ^ w) hra hrb]
        rcases e2 : natCmp (a % 10 ^ w) (b % 10 ^ w) with _ | _ | _
        · have h2 : a % 10 ^ w < b % 10 ^ w := natCmp_lt_iff.mp e2
          exact (natCmp_lt_iff.mpr (by omega)).symm
        · have h2 : a % 10 ^ w = b % 10 ^ w := natCmp_eq_iff.mp e2
          exact (natCmp_eq_iff.mpr (by omega)).symm
        · have h2 : b % 10 ^ w < a % 10 ^ w := natCmp_gt_iff.mp e2
          exact (natCmp_gt_iff.mpr (by omega)).symm
      · have egt : b / 10 ^ w < a / 10 ^ w := natCmp_gt_iff.mp e
        have hmul : 10 ^ w * (b / 10 ^ w + 1) ≤ 10 ^ w * (a / 10 ^ w) :=
          Nat.mul_le_mul_left _ (by omega)
        have hexp : 10 ^ w * (b / 10 ^ w + 1) = 10 ^ w * (b / 10 ^ w) + 10 ^ w := by ring
        have hab : b < a := by omega
        exact (natCmp_gt_iff.mpr hab).symm

theorem lexListCmp_isoformat (a b : Nat)
    (ha : a < 10 ^ isoWidth) (hb : b < 10 ^ isoWidth) :
    lexListCmp charCmp (isoformat a).data (isoformat b).data = natCmp a b :=
  lexListCmp_natDigits isoWidth a b ha hb

theorem parseDigits_natDigits :
    ∀ (w t a : Nat), t < 10 ^ w →
      parseDigits ((natDigits w t).map digitChar) (some a) = some (a * 10 ^ w + t) := by
  intro w
  induction w with
  | zero =>
      intro t a ht
      interval_cases t
      simp [natDigits, parseDigits]
  | succ w ih =>
      intro t a ht
      have hpow : 0 < 10 ^ w := Nat.pos_pow_of_pos w (by omega)
      have hq10 : (10 : Nat) ^ (w + 1) = 10 ^ w * 10 := by ring
      have hq : t / 10 ^ w < 10 := by
        rw [Nat.div_lt_iff_lt_mul hpow]
        omega
      have hr : t % 10 ^ w < 10 ^ w := Nat.mod_lt _ hpow
      have hd : 10 ^ w * (t / 10 ^ w) + t % 10 ^ w = t := Nat.div_add_mod t (10 ^ w)
      simp only [natDigits, List.map_cons, parseDigits, Option.bind,
        charDigit_digitChar _ hq, Option.map]
      rw [ih (t % 10 ^ w) (a * 10 + t / 10 ^ w) hr]
      congr 1
      calc (a * 10 + t / 10 ^ w) * 10 ^ w + t % 10 ^ w
          = a * (10 ^ w * 10) + (10 ^ w * (t / 10 ^ w) + t % 10 ^ w) := by ring
        _ = a * 10 ^ (w + 1) + t := by rw [hd, ← hq10]

theorem fromisoformat_isoformat (t : Nat) (ht : t < 10 ^ isoWidth) :
    fromisoformat (isoformat t) = some t := by
  have hdata : (isoformat t).data = (natDigits isoWidth t).map digitChar := rfl
  unfold fromisoformat
  rw [hdata]
  have hne : ((natDigits isoWidth t).map digitChar).isEmpty = false := by
    show ((natDigits 20 t).map digitChar).isEmpty = false
    simp [natDigits]
  rw [hne]
  simpa using parseDigits_natDigits isoWidth t 0 ht

theorem bvalCmp_str_isoformat (a b : Nat)
    (ha : a < 10 ^ isoWidth) (hb : b < 10 ^ isoWidth) :
    bvalCmp (some (.str (isoformat a))) (some (.str (isoformat b))) = natCmp a b := by
  have hchars := lexListCmp_isoformat a b ha hb
  rcases e : natCmp a b with _ | _ | _ <;>
    rw [e] at hchars <;>
    simp [bvalCmp, compareLex, Ordering.byKey, Ordering.then, bvalRank, bvalInt,
      bvalChars, bvalDt, natCmp, intCmp, hchars, e]

theorem bvalCmp_int (m n : Int) :
    bvalCmp (some (.int m)) (some (.int n)) = intCmp m n := by
  rcases e : intCmp m n with _ | _ | _ <;>
    simp [bvalCmp, compareLex, Ordering.byKey, Ordering.then, bvalRank, bvalInt,
      bvalChars, bvalDt, natCmp, lexListCmp, e]

theorem bvalCmp_dt (s t : Nat) :
    bvalCmp (some (.dt s)) (some (.dt t)) = natCmp s t := by
  rcases e : natCmp s t with _ | _ | _
  · have h := natCmp_lt_iff.mp e
    simp [bvalCmp, compareLex, Ordering.byKey, Ordering.then, bvalRank, bvalInt,
      bvalChars, bvalDt, natCmp, intCmp, lexListCmp, e]
    omega
  · have h := natCmp_eq_iff.mp e
    simp [bvalCmp, compareLex, Ordering.byKey, Ordering.then, bvalRank, bvalInt,
      bvalChars, bvalDt, natCmp, intCmp, lexListCmp, e]
    omega
  · have h := natCmp_gt_iff.mp e
    simp [bvalCmp, compareLex, Ordering.byKey, Ordering.then, bvalRank, bvalInt,
      bvalChars, bvalDt, natCmp, intCmp, lexListCmp, e]
    omega

/-! ### Document accessors and API-created document shapes -/

theorem getField_reviewDoc_id (idv nm : String) (rating : Int) (comment : Option String)
    (t : Nat) : getField (reviewDoc idv nm rating comment t) kId = some (.str idv) := rfl

theorem getField_reviewDoc_rating (idv nm : String) (rating : Int) (comment : Option String)
    (t : Nat) : getField (reviewDoc idv nm rating comment t) kRating = some (.int rating) := rfl

theorem getField_reviewDoc_created_at (idv nm : String) (rating : Int)
    (comment : Option String) (t : Nat) :
    getField (reviewDoc idv nm rating comment t) kCreatedAt = some (.str (isoformat t)) := rfl

theorem getField_statusDoc_id (idv cname : String) (t : Nat) :
    getField (statusDoc idv cname t) kId = some (.str idv) := rfl

theorem getField_statusDoc_timestamp (idv cname : String) (t : Nat) :
    getField (statusDoc idv cname t) kTimestamp = some (.str (isoformat t)) := rfl

theorem docRating_reviewDoc (idv nm : String) (rating : Int) (comment : Option String)
    (t : Nat) : docRating (reviewDoc idv nm rating comment t) = rating := rfl

theorem docTime_reviewDoc (idv nm : String) (rating : Int) (comment : Option String)
    (t : Nat) (ht : t < 10 ^ isoWidth) :
    docTime (reviewDoc idv nm rating comment t) = t := by
  unfold docTime
  rw [getField_reviewDoc_created_at]
  show (fromisoformat (isoformat t)).getD 0 = t
  rw [fromisoformat_isoformat t ht]
  rfl

/-! ### Field update lemmas -/

theorem getField_cons (p : String × BVal) (ps : List (String × BVal)) (k : String) :
    getField (p :: ps) k = if p.1 = k then some p.2 else getField ps k := by
  by_cases hp : p.1 = k <;> simp [getField, List.find?, hp]

theorem getField_setField_same (d : Doc) (k : String) (v : BVal)
    (h : (getField d k).isSome) : getField (setField d k v) k = some v := by
  induction d with
  | nil => simp [getField] at h
  | cons p ps ih =>
      rw [getField_cons] at h
      show getField ((if p.1 = k then (k, v) else p) :: setField ps k v) k = some v
      rw [getField_cons]
      by_cases hpk : p.1 = k
      · rw [if_pos hpk, if_pos rfl]
      · rw [if_neg hpk, if_neg hpk]
        rw [if_neg hpk] at h
        exact ih h

theorem getField_setField_other (d : Doc) (k k2 : String) (v : BVal) (h : k2 ≠ k) :
    getField (setField d k v) k2 = getField d k2 := by
  induction d with
  | nil => rfl
  | cons p ps ih =>
      show getField ((if p.1 = k then (k, v) else p) :: setField ps k v) k2 = _
      rw [getField_cons, getField_cons]
      by_cases hpk : p.1 = k
      · rw [if_pos hpk]
        rw [if_neg (fun hc => h hc.symm), if_neg (by rw [hpk]; exact fun hc => h hc.symm)]
        exact ih
      · rw [if_neg hpk]
        by_cases hp2 : p.1 = k2
        · rw [if_pos hp2, if_pos hp2]
        · rw [if_neg hp2, if_neg hp2]
          exact ih

/-! ### Parse-loop lemmas -/

theorem parse_created_at_of_str (d : Doc) (s : String)
    (e : getField d kCreatedAt = some (.str s)) :
    parse_created_at d =
      (match fromisoformat s with
       | some t => .ok (setField d kCreatedAt (.dt t))
       | none => .error .valueError) := by
  unfold parse_created_at
  rw [e]

theorem parse_created_at_of_nonstr (d : Doc)
    (e : ∀ s, getField d kCreatedAt ≠ some (.str s)) :
    parse_created_at d = .ok d := by
  unfold parse_created_at
  rcases e2 : getField d kCreatedAt with _ | v
  · rfl
  · rcases v with n | s | _ | t
    · rfl
    · exact absurd e2 (e s)
    · rfl
    · rfl

theorem parse_created_at_preserves (d d2 : Doc) (h : parse_created_at d = .ok d2) :
    docRating d2 = docRating d ∧ docTime d2 = docTime d := by
  by_cases hs : ∃ s, getField d kCreatedAt = some (.str s)
  · obtain ⟨s, e⟩ := hs
    rw [parse_created_at_of_str d s e] at h
    rcases e2 : fromisoformat s with _ | t
    · rw [e2] at h
      cases h
    · rw [e2] at h
      cases h
      constructor
      · unfold docRating
        rw [getField_setField_other _ _ _ _ (by decide)]
      · unfold docTime
        rw [getField_setField_same _ _ _ (by rw [e]; rfl), e]
        show t = (fromisoformat s).getD 0
        rw [e2]
        rfl
  · push_neg at hs
    rw [parse_created_at_of_nonstr d hs] at h
    cases h
    exact ⟨rfl, rfl⟩

theorem parse_created_at_ok_of_wf (d : Doc)
    (h : ∀ s, getField d kCreatedAt = some (.str s) → (fromisoformat s).isSome) :
    ∃ d2, parse_created_at d = .ok d2 := by
  by_cases hs : ∃ s, getField d kCreatedAt = some (.str s)
  · obtain ⟨s, e⟩ := hs
    have hiso := h s e
    rcases e2 : fromisoformat s with _ | t
    · rw [e2] at hiso
      cases hiso
    · refine ⟨setField d kCreatedAt (.dt t), ?_⟩
      rw [parse_created_at_of_str d s e, e2]
  · push_neg at hs
    exact ⟨d, parse_created_at_of_nonstr d hs⟩

theorem parse_all_created_at_ok (l : List Doc)
    (h : ∀ d ∈ l, ∃ d2, parse_created_at d = .ok d2) :
    ∃ l2, parse_all_created_at l = .ok l2 := by
  induction l with
  | nil => exact ⟨[], rfl⟩
  | cons d ds ih =>
      obtain ⟨d2, hd2⟩ := h d (List.mem_cons_self d ds)
      obtain ⟨ds2, hds2⟩ := ih (fun x hx => h x (List.mem_cons_of_mem d hx))
      exact ⟨d2 :: ds2, by unfold parse_all_created_at; rw [hd2, hds2]⟩

theorem parse_all_created_at_rel :
    ∀ l l2 : List Doc, parse_all_created_at l = .ok l2 →
      List.Forall₂ (fun d d2 => parse_created_at d = .ok d2) l l2 := by
  intro l
  induction l with
  | nil =>
      intro l2 h
      cases h
      exact List.Forall₂.nil
  | cons d ds ih =>
      intro l2 h
      unfold parse_all_created_at at h
      rcases e : parse_created_at d with _ | d2
      · rw [e] at h
        cases h
      · rw [e] at h
        rcases e2 : parse_all_created_at ds with _ | ds2
        · rw [e2] at h
          cases h
        · rw [e2] at h
          cases h
          exact List.Forall₂.cons e (ih ds2 e2)

theorem parse_timestamp_of_missing (d : Doc) (e : getField d kTimestamp = none) :
    parse_timestamp d = .error .keyError := by
  unfold parse_timestamp
  rw [e]

theorem parse_timestamp_of_str (d : Doc) (s : String)
    (e : getField d kTimestamp = some (.str s)) :
    parse_timestamp d =
      (match fromisoformat s with
       | some t => .ok (setField d kTimestamp (.dt t))
       | none => .error .valueError) := by
  unfold parse_timestamp
  rw [e]

theorem parse_timestamp_of_other (d : Doc)
    (epresent : getField d kTimestamp ≠ none)
    (estr : ∀ s, getField d kTimestamp ≠ some (.str s)) :
    parse_timestamp d = .ok d := by
  unfold parse_timestamp
  rcases e2 : getField d kTimestamp with _ | v
  · exact absurd e2 epresent
  · rcases v with n | s | _ | t
    · rfl
    · exact absurd e2 (estr s)
    · rfl
    · rfl

theorem parse_all_timestamp_ok (l : List Doc)
    (h : ∀ d ∈ l, ∃ d2, parse_timestamp d = .ok d2) :
    ∃ l2, parse_all_timestamp l = .ok l2 := by
  induction l with
  | nil => exact ⟨[], rfl⟩
  | cons d ds ih =>
      obtain ⟨d2, hd2⟩ := h d (List.mem_cons_self d ds)
      obtain ⟨ds2, hds2⟩ := ih (fun x hx => h x (List.mem_cons_of_mem d hx))
      exact ⟨d2 :: ds2, by unfold parse_all_timestamp; rw [hd2, hds2]⟩

theorem parse_all_timestamp_rel :
    ∀ l l2 : List Doc, parse_all_timestamp l = .ok l2 →
      List.Forall₂ (fun d d2 => parse_timestamp d = .ok d2) l l2 := by
  intro l
  induction l with
  | nil =>
      intro l2 h
      cases h
      exact List.Forall₂.nil
  | cons d ds ih =>
      intro l2 h
      unfold parse_all_timestamp at h
      rcases e : parse_timestamp d with _ | d2
      · rw [e] at h
        cases h
      · rw [e] at h
        rcases e2 : parse_all_timestamp ds with _ | ds2
        · rw [e2] at h
          cases h
        · rw [e2] at h
          cases h
          exact List.Forall₂.cons e (ih ds2 e2)

/-- The first raised exception aborts the loop: if every document whose
`timestamp` is a string parses cleanly but some document lacks the field
entirely, the loop fails with `KeyError`. -/
theorem parse_all_timestamp_keyError :
    ∀ l : List Doc,
      (∀ d ∈ l, ∀ s, getField d kTimestamp = some (.str s) → (fromisoformat s).isSome) →
      (∃ d ∈ l, getField d kTimestamp = none) →
      parse_all_timestamp l = .error .keyError := by
  intro l
  induction l with
  | nil =>
      intro _ hmem
      obtain ⟨d, hd, _⟩ := hmem
      cases hd
  | cons d ds ih =>
      intro hwf hmem
      unfold parse_all_timestamp
      rcases e : getField d kTimestamp with _ | v
      · rw [parse_timestamp_of_missing d e]
      · have htail : ∃ x ∈ ds, getField x kTimestamp = none := by
          obtain ⟨x, hx, hxnone⟩ := hmem
          rcases List.mem_cons.mp hx with rfl | hx2
          · rw [e] at hxnone
            cases hxnone
          · exact ⟨x, hx2, hxnone⟩
        have htailwf : ∀ x ∈ ds, ∀ s, getField x kTimestamp = some (.str s) →
            (fromisoformat s).isSome :=
          fun x hx => hwf x (List.mem_cons_of_mem d hx)
        have hrec := ih htailwf htail
        rcases v with n | s | _ | t
        · rw [parse_timestamp_of_other d (by rw [e]; simp) (by intro s hc; rw [e] at hc; cases hc)]
          rw [hrec]
        · have hiso := hwf d (List.mem_cons_self d ds) s e
          rcases e2 : fromisoformat s with _ | t
          · rw [e2] at hiso
            cases hiso
          · rw [parse_timestamp_of_str d s e, e2, hrec]
        · rw [parse_timestamp_of_other d (by rw [e]; simp) (by intro s hc; rw [e] at hc; cases hc)]
          rw [hrec]
        · rw [parse_timestamp_of_other d (by rw [e]; simp) (by intro s hc; rw [e] at hc; cases hc)]
          rw [hrec]

/-! ### Transfer lemmas along the parse loops -/

theorem forall₂_mem_right {f : α → β → Prop} :
    ∀ {l : List α} {l2 : List β}, List.Forall₂ f l l2 → ∀ b ∈ l2, ∃ a ∈ l, f a b := by
  intro l l2 h
  induction h with
  | nil =>
      intro b hb
      cases hb
  | cons hf _ ih =>
      intro b hb
      rcases List.mem_cons.mp hb with rfl | hb2
      · exact ⟨_, List.mem_cons_self _ _, hf⟩
      · obtain ⟨a, ha, hfa⟩ := ih b hb2
        exact ⟨a, List.mem_cons_of_mem _ ha, hfa⟩

theorem forall₂_mem_left {f : α → β → Prop} :
    ∀ {l : List α} {l2 : List β}, List.Forall₂ f l l2 → ∀ a ∈ l, ∃ b ∈ l2, f a b := by
  intro l l2 h
  induction h with
  | nil =>
      intro a ha
      cases ha
  | cons hf _ ih =>
      intro a ha
      rcases List.mem_cons.mp ha with rfl | ha2
      · exact ⟨_, List.mem_cons_self _ _, hf⟩
      · obtain ⟨b, hb, hfb⟩ := ih a ha2
        exact ⟨b, List.mem_cons_of_mem _ hb, hfb⟩

theorem pairwise_forall₂ {f : α → β → Prop} {R : α → α → Prop} {S : β → β → Prop}
    (hcompat : ∀ a b a2 b2, f a a2 → f b b2 → R a b → S a2 b2) :
    ∀ {l : List α} {l2 : List β}, List.Forall₂ f l l2 → l.Pairwise R → l2.Pairwise S := by
  intro l l2 h
  induction h with
  | nil =>
      intro _
      exact List.Pairwise.nil
  | cons hf ht ih =>
      intro hp
      rcases List.pairwise_cons.mp hp with ⟨hhead, htail⟩
      refine List.pairwise_cons.mpr ⟨?_, ih htail⟩
      intro b2 hb2
      obtain ⟨b, hb, hfb⟩ := forall₂_mem_right ht b2 hb2
      exact hcompat _ _ _ _ hf hfb (hhead b hb)

/-! ### Interpreting the sort order on API-created review documents -/

theorem dirCmp_pos (a b : Option BVal) : dirCmp 1 a b = bvalCmp a b := by
  simp [dirCmp]

theorem dirCmp_neg (a b : Option BVal) : dirCmp (-1) a b = bvalCmp b a := by
  simp [dirCmp]

theorem keyLe_ratingDesc (a b : Doc) (ha : IsApiReviewDoc a) (hb : IsApiReviewDoc b)
    (h : keyLe (sort_options .RATING_DESC) a b) :
    docRating b < docRating a ∨ (docRating a = docRating b ∧ docTime b ≤ docTime a) := by
  obtain ⟨ia, na, ra, ca, ta, hta, rfl⟩ := ha
  obtain ⟨ib, nb, rb, cb, tb, htb, rfl⟩ := hb
  rw [docRating_reviewDoc, docRating_reviewDoc, docTime_reviewDoc _ _ _ _ _ hta,
    docTime_reviewDoc _ _ _ _ _ htb]
  unfold keyLe at h
  simp only [sort_options, keyCmp, dirCmp_neg, getField_reviewDoc_rating,
    getField_reviewDoc_created_at] at h
  rw [bvalCmp_int, bvalCmp_str_isoformat tb ta htb hta] at h
  rcases e1 : intCmp rb ra with _ | _ | _
  · left
    exact intCmp_lt_iff.mp e1
  · right
    refine ⟨(intCmp_eq_iff.mp e1).symm, ?_⟩
    simp only [e1] at h
    rcases e2 : natCmp tb ta with _ | _ | _
    · exact le_of_lt (natCmp_lt_iff.mp e2)
    · exact le_of_eq (natCmp_eq_iff.mp e2)
    · rw [e2] at h
      exact absurd rfl h
  · rw [e1] at h
    exact absurd rfl h

theorem keyLe_ratingAsc (a b : Doc) (ha : IsApiReviewDoc a) (hb : IsApiReviewDoc b)
    (h : keyLe (sort_options .RATING_ASC) a b) :
    docRating a < docRating b ∨ (docRating a = docRating b ∧ docTime b ≤ docTime a) := by
  obtain ⟨ia, na, ra, ca, ta, hta, rfl⟩ := ha
  obtain ⟨ib, nb, rb, cb, tb, htb, rfl⟩ := hb
  rw [docRating_reviewDoc, docRating_reviewDoc, docTime_reviewDoc _ _ _ _ _ hta,
    docTime_reviewDoc _ _ _ _ _ htb]
  unfold keyLe at h
  simp only [sort_options, keyCmp, dirCmp_pos, dirCmp_neg, getField_reviewDoc_rating,
    getField_reviewDoc_created_at] at h
  rw [bvalCmp_int, bvalCmp_str_isoformat tb ta htb hta] at h
  rcases e1 : intCmp ra rb with _ | _ | _
  · left
    exact intCmp_lt_iff.mp e1
  · right
    refine ⟨intCmp_eq_iff.mp e1, ?_⟩
    simp only [e1] at h
    rcases e2 : natCmp tb ta with _ | _ | _
    · exact le_of_lt (natCmp_lt_iff.mp e2)
    · exact le_of_eq (natCmp_eq_iff.mp e2)
    · rw [e2] at h
      exact absurd rfl h
  · rw [e1] at h
    exact absurd rfl h

/-! ### Endpoint-level helper lemmas -/

theorem mem_store_of_mem_sort_take (ks : List (String × Int)) (store : List Doc) (d : Doc)
    (hd : d ∈ (mongoSort ks store).take 1000) : d ∈ store :=
  (mongoSort_perm ks store).mem_iff.mp (List.take_subset _ _ hd)

theorem get_reviews_ok_of_wf (store : List Doc) (sort : SortOrder)
    (h : ∀ d ∈ store, ∀ s, getField d kCreatedAt = some (.str s) → (fromisoformat s).isSome) :
    ∃ out, get_reviews store sort = .ok out := by
  unfold get_reviews
  exact parse_all_created_at_ok _ (fun d hd =>
    parse_created_at_ok_of_wf d (h d (mem_store_of_mem_sort_take _ _ _ hd)))

theorem get_reviews_length (store : List Doc) (sort : SortOrder) (out : List Doc)
    (h : get_reviews store sort = .ok out) : out.length ≤ 1000 := by
  unfold get_reviews at h
  have hlen := List.Forall₂.length_eq (parse_all_created_at_rel _ _ h)
  have htake := List.length_take 1000 (mongoSort (sort_options sort) store)
  omega

theorem get_reviews_contains (store2 : List Doc) (sort : SortOrder) (d : Doc)
    (hd : d ∈ store2) (hlen : store2.length ≤ 1000) (out : List Doc)
    (h : get_reviews store2 sort = .ok out) :
    ∃ d2 ∈ out, parse_created_at d = .ok d2 := by
  unfold get_reviews at h
  have hrel := parse_all_created_at_rel _ _ h
  have hmem : d ∈ (mongoSort (sort_options sort) store2).take 1000 := by
    rw [List.take_of_length_le (by rw [(mongoSort_perm _ _).length_eq]; exact hlen)]
    exact (mongoSort_perm _ _).mem_iff.mpr hd
  exact forall₂_mem_left hrel d hmem

theorem get_reviews_pairwise_ratingDesc (store : List Doc)
    (hapi : ∀ d ∈ store, IsApiReviewDoc d) (out : List Doc)
    (h : get_reviews store .RATING_DESC = .ok out) :
    out.Pairwise (fun a b => docRating b < docRating a ∨
      (docRating a = docRating b ∧ docTime b ≤ docTime a)) := by
  unfold get_reviews at h
  have hrel := parse_all_created_at_rel _ _ h
  have hsorted := List.Pairwise.sublist (List.take_sublist 1000 _)
    (mongoSort_sorted (sort_options .RATING_DESC) store)
  have hmem : ((mongoSort (sort_options .RATING_DESC) store).take 1000).Pairwise
      (fun a b => docRating b < docRating a ∨
        (docRating a = docRating b ∧ docTime b ≤ docTime a)) := by
    refine List.Pairwise.imp_of_mem ?_ hsorted
    intro a b hma hmb hle
    exact keyLe_ratingDesc a b (hapi a (mem_store_of_mem_sort_take _ _ _ hma))
      (hapi b (mem_store_of_mem_sort_take _ _ _ hmb)) hle
  refine pairwise_forall₂ ?_ hrel hmem
  intro a b a2 b2 hfa hfb hR
  obtain ⟨h1a, h2a⟩ := parse_created_at_preserves a a2 hfa
  obtain ⟨h1b, h2b⟩ := parse_created_at_preserves b b2 hfb
  rw [h1a, h2a, h1b, h2b]
  exact hR

theorem get_reviews_pairwise_ratingAsc (store : List Doc)
    (hapi : ∀ d ∈ store, IsApiReviewDoc d) (out : List Doc)
    (h : get_reviews store .RATING_ASC = .ok out) :
    out.Pairwise (fun a b => docRating a < docRating b ∨
      (docRating a = docRating b ∧ docTime b ≤ docTime a)) := by
  unfold get_reviews at h
  have hrel := parse_all_created_at_rel _ _ h
  have hsorted := List.Pairwise.sublist (List.take_sublist 1000 _)
    (mongoSort_sorted (sort_options .RATING_ASC) store)
  have hmem : ((mongoSort (sort_options .RATING_ASC) store).take 1000).Pairwise
      (fun a b => docRating a < docRating b ∨
        (docRating a = docRating b ∧ docTime b ≤ docTime a)) := by
    refine List.Pairwise.imp_of_mem ?_ hsorted
    intro a b hma hmb hle
    exact keyLe_ratingAsc a b (hapi a (mem_store_of_mem_sort_take _ _ _ hma))
      (hapi b (mem_store_of_mem_sort_take _ _ _ hmb)) hle
  refine pairwise_forall₂ ?_ hrel hmem
  intro a b a2 b2 hfa hfb hR
  obtain ⟨h1a, h2a⟩ := parse_created_at_preserves a a2 hfa
  obtain ⟨h1b, h2b⟩ := parse_created_at_preserves b b2 hfb
  rw [h1a, h2a, h1b, h2b]
  exact hR

theorem get_status_checks_length (store : List Doc) (out : List Doc)
    (h : get_status_checks store = .ok out) : out.length ≤ 1000 := by
  unfold get_status_checks at h
  have hlen := List.Forall₂.length_eq (parse_all_timestamp_rel _ _ h)
  have htake := List.length_take 1000 store
  omega

theorem get_status_checks_contains (store2 : List Doc) (d : Doc)
    (hd : d ∈ store2) (hlen : store2.length ≤ 1000) (out : List Doc)
    (h : get_status_checks store2 = .ok out) :
    ∃ d2 ∈ out, parse_timestamp d = .ok d2 := by
  unfold get_status_checks at h
  have hrel := parse_all_timestamp_rel _ _ h
  have hmem : d ∈ store2.take 1000 := by
    rw [List.take_of_length_le hlen]
    exact hd
  exact forall₂_mem_left hrel d hmem

/-! ### Statistics lemmas -/

theorem ratingsOf_eq_map (store : List Doc)
    (h : ∀ d ∈ store, ∃ n, getField d kRating = some (.int n)) :
    ratingsOf store = store.map docRating := by
  induction store with
  | nil => rfl
  | cons d ds ih =>
      obtain ⟨n, e⟩ := h d (List.mem_cons_self d ds)
      have htail := ih (fun x hx => h x (List.mem_cons_of_mem d hx))
      unfold ratingsOf at htail ⊢
      rw [List.filterMap_cons, List.map_cons]
      have hfd : (match getField d kRating with
          | some (BVal.int n) => some n
          | _ => none) = some n := by rw [e]
      rw [hfd, htail]
      have hdr : docRating d = n := by
        unfold docRating
        rw [e]
        rfl
      rw [hdr]

theorem aggregate_stats_cons (d : Doc) (ds : List Doc) :
    aggregate_stats (d :: ds) =
      [(if (ratingsOf (d :: ds)).length = 0 then none
        else some ((((ratingsOf (d :: ds)).foldl (· + ·) 0 : Int) : Rat) /
          ((ratingsOf (d :: ds)).length : Rat)),
        ((d :: ds).length : Int))] := rfl

theorem get_review_stats_eq (store : List Doc) (hne : store ≠ [])
    (h : ∀ d ∈ store, ∃ n, getField d kRating = some (.int n)) :
    get_review_stats store = .ok
      ⟨pyRound1 ((((store.map docRating).foldl (· + ·) 0 : Int) : Rat) / (store.length : Rat)),
       (store.length : Int)⟩ := by
  cases store with
  | nil => exact absurd rfl hne
  | cons d ds =>
      have hr := ratingsOf_eq_map (d :: ds) h
      have hagg : aggregate_stats (d :: ds) =
          [(some (((((d :: ds).map docRating).foldl (· + ·) 0 : Int) : Rat) /
              (((d :: ds).length : Rat))),
            ((d :: ds).length : Int))] := by
        rw [aggregate_stats_cons, hr]
        rw [if_neg (by rw [List.length_map]; simp)]
        rw [List.length_map]
      unfold get_review_stats
      rw [hagg]

/-! ### Validation lemmas -/

theorem validate_review_create_iff (inp : ReviewCreateInput) :
    validate_review_create inp = true ↔
      (1 ≤ inp.name.length ∧ inp.name.length ≤ 100 ∧ 1 ≤ inp.rating ∧ inp.rating ≤ 5 ∧
       ∀ c, inp.comment = some c → c.length ≤ 500) := by
  unfold validate_review_create
  rcases e : inp.comment with _ | c
  · simp [e, Bool.and_eq_true, decide_eq_true_iff]
    tauto
  · simp [e, Bool.and_eq_true, decide_eq_true_iff]
    tauto

/-! ### Round-trip of freshly created documents through the parse loops -/

theorem parse_created_at_reviewDoc (idv nm : String) (r : Int) (c : Option String) (t : Nat)
    (ht : t < 10 ^ isoWidth) :
    parse_created_at (reviewDoc idv nm r c t) =
      .ok (setField (reviewDoc idv nm r c t) kCreatedAt (.dt t)) := by
  rw [parse_created_at_of_str _ _ (getField_reviewDoc_created_at idv nm r c t),
    fromisoformat_isoformat t ht]

theorem parse_timestamp_statusDoc (idv c : String) (t : Nat) (ht : t < 10 ^ isoWidth) :
    parse_timestamp (statusDoc idv c t) =
      .ok (setField (statusDoc idv c t) kTimestamp (.dt t)) := by
  rw [parse_timestamp_of_str _ _ (getField_statusDoc_timestamp idv c t),
    fromisoformat_isoformat t ht]

theorem getField_parsed_reviewDoc_id (idv nm : String) (r : Int) (c : Option String) (t : Nat) :
    getField (setField (reviewDoc idv nm r c t) kCreatedAt (.dt t)) kId = some (.str idv) := by
  rw [getField_setField_other _ _ _ _ (by decide)]
  exact getField_reviewDoc_id idv nm r c t

theorem getField_parsed_reviewDoc_created_at (idv nm : String) (r : Int) (c : Option String)
    (t : Nat) :
    getField (setField (reviewDoc idv nm r c t) kCreatedAt (.dt t)) kCreatedAt =
      some (.dt t) :=
  getField_setField_same _ _ _ (by rw [getField_reviewDoc_created_at]; rfl)

theorem getField_parsed_statusDoc_id (idv c : String) (t : Nat) :
    getField (setField (statusDoc idv c t) kTimestamp (.dt t)) kId = some (.str idv) := by
  rw [getField_setField_other _ _ _ _ (by decide)]
  exact getField_statusDoc_id idv c t

theorem getField_parsed_statusDoc_timestamp (idv c : String) (t : Nat) :
    getField (setField (statusDoc idv c t) kTimestamp (.dt t)) kTimestamp = some (.dt t) :=
  getField_setField_same _ _ _ (by rw [getField_statusDoc_timestamp]; rfl)

theorem isApiReviewDoc_wf (d : Doc) (h : IsApiReviewDoc d) :
    ∀ s, getField d kCreatedAt = some (.str s) → (fromisoformat s).isSome := by
  obtain ⟨idv, nm, r, c, t, ht, rfl⟩ := h
  intro s hs
  rw [getField_reviewDoc_created_at] at hs
  have : s = isoformat t := (BVal.str.inj (Option.some.inj hs)).symm
  rw [this, fromisoformat_isoformat t ht]
  rfl

theorem exStore_eq :
    exStore = [reviewDoc ("id1") "a" 5 none 0, reviewDoc ("id2") "b" 4 none 1,
      reviewDoc ("id3") "c" 3 none 2, reviewDoc ("id4") "d" 5 none 3,
      reviewDoc ("id5") "e" 2 none 4] := by
  decide

/-! ### Claim theorems -/

/-- C1: for every valid review-creation payload, `create_review` returns a
record whose `name`/`rating`/`comment` equal the input exactly, carrying the
freshly generated `id` and `created_at`, and persists that same full record
(serialised) by appending it to the store; likewise `create_status_check`
echoes `client_name` and persists the record. -/
theorem create_review_echoes_and_persists :
    (∀ (store : List Doc) (inp : ReviewCreateInput) (idv : String) (t : Nat),
      validate_review_create inp = true →
      create_review store inp idv t =
        (.ok ⟨idv, inp.name, inp.rating, inp.comment, t⟩,
         store ++ [reviewDoc idv inp.name inp.rating inp.comment t])) ∧
    (∀ (store : List Doc) (inp : StatusCheckCreateInput) (idv : String) (t : Nat),
      create_status_check store inp idv t =
        (.ok ⟨idv, inp.client_name, t⟩, store ++ [statusDoc idv inp.client_name t])) := by
  constructor
  · intro store inp idv t hv
    unfold create_review
    rw [if_pos hv]
  · intro store inp idv t
    rfl

/-- Witness for C1 at a concrete valid payload. -/
theorem create_review_echoes_and_persists_witness :
    validate_review_create ⟨"Marie", 5, some ("Tres bon")⟩ = true ∧
    create_review [] ⟨"Marie", 5, some ("Tres bon")⟩ "id1" 3 =
      (.ok ⟨"id1", "Marie", 5, some ("Tres bon"), 3⟩,
       [reviewDoc ("id1") "Marie" 5 (some ("Tres bon")) 3]) := by
  refine ⟨by decide, ?_⟩
  have h := create_review_echoes_and_persists.1 [] ⟨"Marie", 5, some ("Tres bon")⟩ "id1" 3
    (by decide)
  simpa using h

/-- C2: a payload with rating outside `[1, 5]`, empty name, name over 100
characters or comment over 500 characters is rejected with a
`ValidationError` and the store is unchanged; consequently every stored
review document satisfies the data-model bounds. -/
theorem invalid_review_rejected_and_store_invariant :
    (∀ (store : List Doc) (inp : ReviewCreateInput) (idv : String) (t : Nat),
      (inp.rating < 1 ∨ 5 < inp.rating ∨ inp.name.length = 0 ∨ 100 < inp.name.length ∨
        (∃ c, inp.comment = some c ∧ 500 < c.length)) →
      create_review store inp idv t = (.error .validationError, store)) ∧
    (∀ store : List Doc, (∀ d ∈ store, IsValidReviewDoc d) →
      ∀ (inp : ReviewCreateInput) (idv : String) (t : Nat) (d : Doc),
        d ∈ (create_review store inp idv t).2 → IsValidReviewDoc d) := by
  constructor
  · intro store inp idv t hbad
    unfold create_review
    rw [if_neg]
    intro hv
    rw [validate_review_create_iff] at hv
    obtain ⟨h1, h2, h3, h4, h5⟩ := hv
    rcases hbad with h | h | h | h | ⟨c, hc, hlen⟩
    · omega
    · omega
    · omega
    · omega
    · exact absurd (h5 c hc) (by omega)
  · intro store hstore inp idv t d hd
    unfold create_review at hd
    by_cases hv : validate_review_create inp = true
    · rw [if_pos hv] at hd
      rcases List.mem_append.mp hd with h | h
      · exact hstore d h
      · rw [List.mem_singleton] at h
        subst h
        rw [validate_review_create_iff] at hv
        exact ⟨idv, inp.name, inp.rating, inp.comment, t, rfl, hv.1, hv.2.1, hv.2.2.1,
          hv.2.2.2.1, hv.2.2.2.2⟩
    · rw [if_neg hv] at hd
      exact hstore d hd

/-- Witness for C2: an out-of-range rating is rejected with the store
untouched, and the invariant holds on the store that creation produces. -/
theorem invalid_review_rejected_witness :
    ((0 : Int) < 1 ∨ 5 < (0 : Int) ∨ ("Test" : String).length = 0 ∨
      100 < ("Test" : String).length ∨
      (∃ c, (none : Option String) = some c ∧ 500 < c.length)) ∧
    create_review [] ⟨"Test", 0, none⟩ "id1" 7 = (.error .validationError, []) ∧
    IsValidReviewDoc (reviewDoc ("id1") "Ana" 4 none 7) := by
  refine ⟨Or.inl (by decide), ?_, ?_⟩
  · exact invalid_review_rejected_and_store_invariant.1 [] ⟨"Test", 0, none⟩ "id1" 7
      (Or.inl (by decide))
  · refine invalid_review_rejected_and_store_invariant.2 [] (fun d hd => absurd hd ?_)
      ⟨"Ana", 4, none⟩ "id1" 7 (reviewDoc ("id1") "Ana" 4 none 7) ?_
    · exact List.not_mem_nil d
    · decide

/-- C5: on an empty collection the stats endpoint returns average 0.0 and
count 0 rather than failing, and review listing returns the empty list under
every sort option. -/
theorem empty_collection_stats_and_listing :
    get_review_stats [] = .ok ⟨0, 0⟩ ∧
    get_reviews [] .DATE_DESC = .ok [] ∧
    get_reviews [] .DATE_ASC = .ok [] ∧
    get_reviews [] .RATING_DESC = .ok [] ∧
    get_reviews [] .RATING_ASC = .ok [] :=
  ⟨rfl, rfl, rfl, rfl, rfl⟩

/-- C6: the `sort` query parameter is parsed against a closed set of four
values; anything else fails at request-parsing time with a
`ValidationError` (never a default fallback), while omitting the parameter
applies the newest-first default. -/
theorem unknown_sort_rejected :
    (∀ s : String,
      s ∉ (["date_desc", "date_asc", "rating_desc", "rating_asc"] : List String) →
      parse_sort_param (some s) = .error .validationError) ∧
    parse_sort_param none = .ok .DATE_DESC ∧
    (∀ (s : String) (v : SortOrder), parse_sort_param (some s) = .ok v →
      s ∈ (["date_desc", "date_asc", "rating_desc", "rating_asc"] : List String)) := by
  refine ⟨?_, rfl, ?_⟩
  · intro s hs
    have h1 : ¬ s = "date_desc" := fun h => hs (by rw [h]; simp)
    have h2 : ¬ s = "date_asc" := fun h => hs (by rw [h]; simp)
    have h3 : ¬ s = "rating_desc" := fun h => hs (by rw [h]; simp)
    have h4 : ¬ s = "rating_asc" := fun h => hs (by rw [h]; simp)
    show (if s = "date_desc" then Except.ok SortOrder.DATE_DESC
      else if s = "date_asc" then Except.ok SortOrder.DATE_ASC
      else if s = "rating_desc" then Except.ok SortOrder.RATING_DESC
      else if s = "rating_asc" then Except.ok SortOrder.RATING_ASC
      else Except.error ValidationError.validationError) = .error .validationError
    rw [if_neg h1, if_neg h2, if_neg h3, if_neg h4]
  · intro s v hparam
    have h : (if s = "date_desc" then Except.ok SortOrder.DATE_DESC
      else if s = "date_asc" then Except.ok SortOrder.DATE_ASC
      else if s = "rating_desc" then Except.ok SortOrder.RATING_DESC
      else if s = "rating_asc" then Except.ok SortOrder.RATING_ASC
      else Except.error ValidationError.validationError) = .ok v := hparam
    by_cases e1 : s = "date_desc"
    · rw [e1]
      simp
    rw [if_neg e1] at h
    by_cases e2 : s = "date_asc"
    · rw [e2]
      simp
    rw [if_neg e2] at h
    by_cases e3 : s = "rating_desc"
    · rw [e3]
      simp
    rw [if_neg e3] at h
    by_cases e4 : s = "rating_asc"
    · rw [e4]
      simp
    rw [if_neg e4] at h
    cases h

/-- Witness for C6 at the unrecognised value `bogus`. -/
theorem unknown_sort_rejected_witness :
    ("bogus" : String) ∉
      (["date_desc", "date_asc", "rating_desc", "rating_asc"] : List String) ∧
    parse_sort_param (some ("bogus")) = .error .validationError :=
  ⟨by decide, unknown_sort_rejected.1 ("bogus") (by decide)⟩

/-- C7: review listing and status listing each return at most 1000
documents, whatever the store contains. -/
theorem listing_capped_at_1000 :
    (∀ (store : List Doc) (sort : SortOrder) (out : List Doc),
      get_reviews store sort = .ok out → out.length ≤ 1000) ∧
    (∀ store out : List Doc, get_status_checks store = .ok out → out.length ≤ 1000) :=
  ⟨fun store sort out h => get_reviews_length store sort out h,
   fun store out h => get_status_checks_length store out h⟩

/-- Witness for C7 on concrete stores. -/
theorem listing_capped_at_1000_witness :
    get_reviews [] .DATE_DESC = .ok [] ∧ ([] : List Doc).length ≤ 1000 ∧
    get_status_checks [] = .ok [] ∧ ([] : List Doc).length ≤ 1000 :=
  ⟨rfl, listing_capped_at_1000.1 [] .DATE_DESC [] rfl, rfl,
   listing_capped_at_1000.2 [] [] rfl⟩

/-- C8 (counterexample): the status-creation endpoint accepts the empty
`client_name`; a status check is created even though the client name is not
a non-empty string, refuting acceptance being exactly at non-empty strings. -/
theorem status_accepts_empty_client_name :
    (create_status_check [] ⟨""⟩ "id0" 0).1 = .ok ⟨"id0", "", 0⟩ ∧
    ("" : String).length = 0 :=
  ⟨rfl, rfl⟩

/-- C8 (amended): `StatusCheckCreate` enforces no constraint on
`client_name` at all — a status check is created for every string payload,
with the name echoed and the record persisted. -/
theorem status_accepts_any_client_name :
    ∀ (store : List Doc) (inp : StatusCheckCreateInput) (idv : String) (t : Nat),
      create_status_check store inp idv t =
        (.ok ⟨idv, inp.client_name, t⟩, store ++ [statusDoc idv inp.client_name t]) :=
  fun _ _ _ _ => rfl

theorem parse_timestamp_ok_of_wf (d : Doc)
    (hp : getField d kTimestamp ≠ none)
    (h : ∀ s, getField d kTimestamp = some (.str s) → (fromisoformat s).isSome) :
    ∃ d2, parse_timestamp d = .ok d2 := by
  by_cases hs : ∃ s, getField d kTimestamp = some (.str s)
  · obtain ⟨s, e⟩ := hs
    have hiso := h s e
    rcases e2 : fromisoformat s with _ | t
    · rw [e2] at hiso
      cases hiso
    · refine ⟨setField d kTimestamp (.dt t), ?_⟩
      rw [parse_timestamp_of_str d s e, e2]
  · push_neg at hs
    exact ⟨d, parse_timestamp_of_other d hp hs⟩

theorem get_status_checks_ok_of_wf (store : List Doc)
    (h : ∀ d ∈ store, getField d kTimestamp ≠ none ∧
      ∀ s, getField d kTimestamp = some (.str s) → (fromisoformat s).isSome) :
    ∃ out, get_status_checks store = .ok out := by
  unfold get_status_checks
  exact parse_all_timestamp_ok _ (fun d hd =>
    parse_timestamp_ok_of_wf d (h d (List.take_subset _ _ hd)).1 (h d (List.take_subset _ _ hd)).2)

/-- C10: the status listing indexes `check['timestamp']` directly, so a
stored status document lacking the field makes the request fail with
`KeyError`; the review listing uses `review.get('created_at')` and so
succeeds on stores whose documents may lack the timestamp field entirely. -/
theorem status_listing_keyerror_reviews_total :
    (∀ store : List Doc,
      (∀ d ∈ store.take 1000, ∀ s, getField d kTimestamp = some (.str s) →
        (fromisoformat s).isSome) →
      (∃ d ∈ store.take 1000, getField d kTimestamp = none) →
      get_status_checks store = .error .keyError) ∧
    (∀ (store : List Doc) (sort : SortOrder),
      (∀ d ∈ store, ∀ s, getField d kCreatedAt = some (.str s) → (fromisoformat s).isSome) →
      ∃ out, get_reviews store sort = .ok out) := by
  constructor
  · intro store hwf hmiss
    unfold get_status_checks
    exact parse_all_timestamp_keyError _ hwf hmiss
  · intro store sort h
    exact get_reviews_ok_of_wf store sort h

/-- Witness for C10: a status document without `timestamp` makes the status
listing raise `KeyError`, while a review document without `created_at` is
listed without error. -/
theorem status_listing_keyerror_witness :
    get_status_checks [[(kClientName, .str ("x"))]] = .error .keyError ∧
    (∃ out, get_reviews [[(kName, .str ("y"))]] .DATE_DESC = .ok out) := by
  constructor
  · refine status_listing_keyerror_reviews_total.1 _ ?_ ?_
    · intro d hd s hs
      rw [show (([[(kClientName, BVal.str ("x"))]] : List Doc).take 1000) =
        [[(kClientName, BVal.str ("x"))]] from rfl] at hd
      rw [List.mem_singleton] at hd
      subst hd
      rw [show getField [(kClientName, BVal.str ("x"))] kTimestamp = none from rfl] at hs
      cases hs
    · refine ⟨[(kClientName, .str ("x"))], ?_, rfl⟩
      rw [show (([[(kClientName, BVal.str ("x"))]] : List Doc).take 1000) =
        [[(kClientName, BVal.str ("x"))]] from rfl]
      exact List.mem_singleton.mpr rfl
  · refine status_listing_keyerror_reviews_total.2 _ .DATE_DESC ?_
    intro d hd s hs
    rw [List.mem_singleton] at hd
    subst hd
    rw [show getField [(kName, BVal.str ("y"))] kCreatedAt = none from rfl] at hs
    cases hs

theorem pyRound1_nineteen_fifths : pyRound1 ((19 : Rat) / 5) = 19 / 5 := by
  have h1 : (19 : Rat) / 5 * 10 = 38 := by norm_num
  unfold pyRound1 roundHalfEven
  rw [h1]
  have h2 : ((38 : Rat)).floor = 38 := by
    rw [Rat.floor_def']
    norm_num
  rw [h2]
  norm_num

/-- C4: on a non-empty collection the stats endpoint returns the arithmetic
mean of the stored ratings rounded to one decimal place together with the
total document count (the aggregation is the single `$group` pass modelled
by `aggregate_stats`); in particular the store holding ratings
[5, 4, 3, 5, 2] yields average 3.8 and count 5. -/
theorem stats_mean_rounded_and_count :
    (∀ store : List Doc, store ≠ [] →
      (∀ d ∈ store, ∃ n, getField d kRating = some (.int n)) →
      get_review_stats store = .ok
        ⟨pyRound1 ((((store.map docRating).foldl (· + ·) 0 : Int) : Rat) /
            (store.length : Rat)),
         (store.length : Int)⟩) ∧
    get_review_stats exStore = .ok ⟨19 / 5, 5⟩ ∧ (19 : Rat) / 5 = 3.8 := by
  refine ⟨fun store hne h => get_review_stats_eq store hne h, ?_, by norm_num⟩
  have hex := get_review_stats_eq exStore (by decide) ?_
  · rw [hex]
    have hmap : exStore.map docRating = [5, 4, 3, 5, 2] := by decide
    have hlen : exStore.length = 5 := by decide
    rw [hmap, hlen]
    have hfold : (([5, 4, 3, 5, 2] : List Int).foldl (· + ·) 0) = 19 := by decide
    rw [hfold]
    have hcast : (((19 : Int) : Rat)) / (((5 : Nat) : Nat) : Rat) = (19 : Rat) / 5 := by
      norm_num
    rw [hcast, pyRound1_nineteen_fifths]
    norm_num
  · rw [exStore_eq]
    intro d hd
    fin_cases hd <;> exact ⟨_, rfl⟩

/-- Witness for C4: the general statement applied to the example store. -/
theorem stats_mean_rounded_witness :
    exStore ≠ [] ∧
    get_review_stats exStore = .ok
      ⟨pyRound1 ((((exStore.map docRating).foldl (· + ·) 0 : Int) : Rat) /
          (exStore.length : Rat)),
       (exStore.length : Int)⟩ := by
  refine ⟨by decide, ?_⟩
  refine stats_mean_rounded_and_count.1 exStore (by decide) ?_
  rw [exStore_eq]
  intro d hd
  fin_cases hd <;> exact ⟨_, rfl⟩

theorem exStore_api : ∀ d ∈ exStore, IsApiReviewDoc d := by
  rw [exStore_eq]
  intro d hd
  fin_cases hd
  · exact ⟨"id1", "a", 5, none, 0, by norm_num [isoWidth], rfl⟩
  · exact ⟨"id2", "b", 4, none, 1, by norm_num [isoWidth], rfl⟩
  · exact ⟨"id3", "c", 3, none, 2, by norm_num [isoWidth], rfl⟩
  · exact ⟨"id4", "d", 5, none, 3, by norm_num [isoWidth], rfl⟩
  · exact ⟨"id5", "e", 2, none, 4, by norm_num [isoWidth], rfl⟩

/-- C3: over any store of API-created review documents, `rating_desc`
listing is ordered by rating descending with creation time newest-first as
the tie-break, and `rating_asc` by rating ascending with the same
newest-first tie-break; on the store with ratings [5, 4, 3, 5, 2] created in
that order, `rating_desc` returns rating sequence [5, 5, 4, 3, 2] with the
two 5-rated reviews newest-first (creation times [3, 0, 1, 2, 4]). -/
theorem rating_sort_orders_with_date_tiebreak :
    (∀ store : List Doc, (∀ d ∈ store, IsApiReviewDoc d) →
      (∃ out, get_reviews store .RATING_DESC = .ok out ∧
        out.Pairwise (fun a b => docRating b < docRating a ∨
          (docRating a = docRating b ∧ docTime b ≤ docTime a))) ∧
      (∃ out, get_reviews store .RATING_ASC = .ok out ∧
        out.Pairwise (fun a b => docRating a < docRating b ∨
          (docRating a = docRating b ∧ docTime b ≤ docTime a)))) ∧
    (get_reviews exStore .RATING_DESC).map (fun l => l.map docRating) =
      .ok [5, 5, 4, 3, 2] ∧
    (get_reviews exStore .RATING_DESC).map (fun l => l.map docTime) =
      .ok [3, 0, 1, 2, 4] := by
  refine ⟨?_, by decide, by decide⟩
  intro store hapi
  have hwf : ∀ d ∈ store, ∀ s, getField d kCreatedAt = some (.str s) →
      (fromisoformat s).isSome :=
    fun d hd => isApiReviewDoc_wf d (hapi d hd)
  constructor
  · obtain ⟨out, hout⟩ := get_reviews_ok_of_wf store .RATING_DESC hwf
    exact ⟨out, hout, get_reviews_pairwise_ratingDesc store hapi out hout⟩
  · obtain ⟨out, hout⟩ := get_reviews_ok_of_wf store .RATING_ASC hwf
    exact ⟨out, hout, get_reviews_pairwise_ratingAsc store hapi out hout⟩

/-- Witness for C3: the general sortedness statement applied to the example
store. -/
theorem rating_sort_orders_witness :
    (∀ d ∈ exStore, IsApiReviewDoc d) ∧
    ((∃ out, get_reviews exStore .RATING_DESC = .ok out ∧
        out.Pairwise (fun a b => docRating b < docRating a ∨
          (docRating a = docRating b ∧ docTime b ≤ docTime a))) ∧
      (∃ out, get_reviews exStore .RATING_ASC = .ok out ∧
        out.Pairwise (fun a b => docRating a < docRating b ∨
          (docRating a = docRating b ∧ docTime b ≤ docTime a)))) :=
  ⟨exStore_api, rating_sort_orders_with_date_tiebreak.1 exStore exStore_api⟩

/-- C9: creation serialises the generated timestamp with `isoformat` before
insertion and listing parses it back with `fromisoformat`, so the encoding
round-trips exactly, and a record created through either creation endpoint is
later returned by the corresponding listing with the same identifier and the
same timestamp as the one returned at creation. -/
theorem creation_listing_timestamp_roundtrip :
    (∀ t : Nat, t < 10 ^ isoWidth → fromisoformat (isoformat t) = some t) ∧
    (∀ (store : List Doc) (inp : ReviewCreateInput) (idv : String) (t : Nat)
        (r : Review) (store2 : List Doc),
      create_review store inp idv t = (.ok r, store2) →
      t < 10 ^ isoWidth → store2.length ≤ 1000 →
      (∀ d ∈ store, ∀ s, getField d kCreatedAt = some (.str s) →
        (fromisoformat s).isSome) →
      ∀ sort, ∃ out, get_reviews store2 sort = .ok out ∧
        ∃ d ∈ out, getField d kId = some (.str r.id) ∧
          getField d kCreatedAt = some (.dt r.created_at)) ∧
    (∀ (store : List Doc) (inp : StatusCheckCreateInput) (idv : String) (t : Nat)
        (r : StatusCheck) (store2 : List Doc),
      create_status_check store inp idv t = (.ok r, store2) →
      t < 10 ^ isoWidth → store2.length ≤ 1000 →
      (∀ d ∈ store, getField d kTimestamp ≠ none ∧
        ∀ s, getField d kTimestamp = some (.str s) → (fromisoformat s).isSome) →
      ∃ out, get_status_checks store2 = .ok out ∧
        ∃ d ∈ out, getField d kId = some (.str r.id) ∧
          getField d kTimestamp = some (.dt r.timestamp)) := by
  refine ⟨fromisoformat_isoformat, ?_, ?_⟩
  · intro store inp idv t r store2 hcr ht hlen hwf sort
    unfold create_review at hcr
    by_cases hv : validate_review_create inp = true
    · rw [if_pos hv] at hcr
      have h1 : Except.ok (⟨idv, inp.name, inp.rating, inp.comment, t⟩ : Review) = .ok r :=
        congrArg Prod.fst hcr
      have hr : r = ⟨idv, inp.name, inp.rating, inp.comment, t⟩ := (Except.ok.inj h1).symm
      have hs2 : store2 = store ++ [reviewDoc idv inp.name inp.rating inp.comment t] :=
        (congrArg Prod.snd hcr).symm
      subst hr
      subst hs2
      have hwf2 : ∀ d ∈ store ++ [reviewDoc idv inp.name inp.rating inp.comment t],
          ∀ s, getField d kCreatedAt = some (.str s) → (fromisoformat s).isSome := by
        intro d hd
        rcases List.mem_append.mp hd with h | h
        · exact hwf d h
        · rw [List.mem_singleton] at h
          subst h
          exact isApiReviewDoc_wf _ ⟨idv, inp.name, inp.rating, inp.comment, t, ht, rfl⟩
      obtain ⟨out, hout⟩ := get_reviews_ok_of_wf _ sort hwf2
      have hmem : reviewDoc idv inp.name inp.rating inp.comment t ∈
          store ++ [reviewDoc idv inp.name inp.rating inp.comment t] :=
        List.mem_append.mpr (Or.inr (List.mem_singleton.mpr rfl))
      obtain ⟨d2, hd2mem, hd2eq⟩ := get_reviews_contains _ sort _ hmem hlen out hout
      rw [parse_created_at_reviewDoc idv inp.name inp.rating inp.comment t ht] at hd2eq
      have hd2 : d2 = setField (reviewDoc idv inp.name inp.rating inp.comment t)
          kCreatedAt (.dt t) := (Except.ok.inj hd2eq).symm
      subst hd2
      exact ⟨out, hout, _, hd2mem,
        getField_parsed_reviewDoc_id idv inp.name inp.rating inp.comment t,
        getField_parsed_reviewDoc_created_at idv inp.name inp.rating inp.comment t⟩
    · rw [if_neg hv] at hcr
      exact absurd (congrArg Prod.fst hcr) (fun hc => Except.noConfusion hc)
  · intro store inp idv t r store2 hcr ht hlen hwf
    unfold create_status_check at hcr
    have h1 : Except.ok (⟨idv, inp.client_name, t⟩ : StatusCheck) = .ok r :=
      congrArg Prod.fst hcr
    have hr : r = ⟨idv, inp.client_name, t⟩ := (Except.ok.inj h1).symm
    have hs2 : store2 = store ++ [statusDoc idv inp.client_name t] :=
      (congrArg Prod.snd hcr).symm
    subst hr
    subst hs2
    have hwf2 : ∀ d ∈ store ++ [statusDoc idv inp.client_name t],
        getField d kTimestamp ≠ none ∧
        ∀ s, getField d kTimestamp = some (.str s) → (fromisoformat s).isSome := by
      intro d hd
      rcases List.mem_append.mp hd with h | h
      · exact hwf d h
      · rw [List.mem_singleton] at h
        subst h
        constructor
        · rw [getField_statusDoc_timestamp]
          exact fun hc => Option.noConfusion hc
        · intro s hs
          rw [getField_statusDoc_timestamp] at hs
          have hseq : s = isoformat t := (BVal.str.inj (Option.some.inj hs)).symm
          rw [hseq, fromisoformat_isoformat t ht]
          rfl
    obtain ⟨out, hout⟩ := get_status_checks_ok_of_wf _ hwf2
    have hmem : statusDoc idv inp.client_name t ∈ store ++ [statusDoc idv inp.client_name t] :=
      List.mem_append.mpr (Or.inr (List.mem_singleton.mpr rfl))
    obtain ⟨d2, hd2mem, hd2eq⟩ := get_status_checks_contains _ _ hmem hlen out hout
    rw [parse_timestamp_statusDoc idv inp.client_name t ht] at hd2eq
    have hd2 : d2 = setField (statusDoc idv inp.client_name t) kTimestamp (.dt t) :=
      (Except.ok.inj hd2eq).symm
    subst hd2
    exact ⟨out, hout, _, hd2mem,
      getField_parsed_statusDoc_id idv inp.client_name t,
      getField_parsed_statusDoc_timestamp idv inp.client_name t⟩

/-- Witness for C9 at concrete review and status creations. -/
theorem creation_listing_timestamp_roundtrip_witness :
    ((0 : Nat) < 10 ^ isoWidth ∧ fromisoformat (isoformat 0) = some 0) ∧
    (∃ out, get_reviews [reviewDoc ("id1") "a" 5 none 0] .DATE_DESC = .ok out ∧
      ∃ d ∈ out, getField d kId = some (.str ("id1")) ∧
        getField d kCreatedAt = some (.dt 0)) ∧
    (∃ out, get_status_checks [statusDoc ("sid") "cli" 7] = .ok out ∧
      ∃ d ∈ out, getField d kId = some (.str ("sid")) ∧
        getField d kTimestamp = some (.dt 7)) := by
  have hpos : (0 : Nat) < 10 ^ isoWidth := by norm_num [isoWidth]
  have h7 : (7 : Nat) < 10 ^ isoWidth := by norm_num [isoWidth]
  refine ⟨⟨hpos, creation_listing_timestamp_roundtrip.1 0 hpos⟩, ?_, ?_⟩
  · exact creation_listing_timestamp_roundtrip.2.1 [] ⟨"a", 5, none⟩ "id1" 0
      ⟨"id1", "a", 5, none, 0⟩ [reviewDoc ("id1") "a" 5 none 0] (by decide) hpos (by decide)
      (fun d hd => absurd hd (List.not_mem_nil d)) .DATE_DESC
  · exact creation_listing_timestamp_roundtrip.2.2 [] ⟨"cli"⟩ "sid" 7
      ⟨"sid", "cli", 7⟩ [statusDoc ("sid") "cli" 7] (by decide) h7 (by decide)
      (fun d hd => absurd hd (List.not_mem_nil d))
